import Mathlib

/-!
Verification of the `ghretos` URL/shorthand classifier.

Strings from the Python source are embedded as `List Char`.  Each Python
function of `src/ghretos/parsing.py` (and, for the equivalence claim, the
older copies in `src/ghretos/__init__.py`) is translated into a total Lean
function; Python operations that can raise are modelled with `Option` /
`Except`.  The only behaviour modelled with `Except.error` is an uncaught
`ValueError` (the two `int(fragment)` calls in the loose matcher that are
not wrapped in `try`/`except`).

The decomposition of a URL string into scheme/host/path-segments/fragment is
performed by the external `yarl` library in the source; `urlOfString` below
models that collaborator.
-/

namespace Ghretos

/-- Characters Python's `string.whitespace` contains (ASCII part). -/
def pyWs (c : Char) : Bool :=
  c = ' ' ∨ c = '\t' ∨ c = '\n' ∨ c = '\r' ∨ c = Char.ofNat 11 ∨ c = Char.ofNat 12

/-- Membership in Python's `string.ascii_letters + string.digits + "-"`,
the allowed set of `_valid_user`. -/
def userChar (c : Char) : Bool :=
  c.isAlpha ∨ c.isDigit ∨ c = '-'

/-- Membership in `string.ascii_letters + string.digits + "-._"`, the allowed
set of `_valid_repository` and of both loops in `parse_shorthand`. -/
def repoChar (c : Char) : Bool :=
  c.isAlpha ∨ c.isDigit ∨ c = '-' ∨ c = '.' ∨ c = '_'

/-- ASCII hexadecimal digit. -/
def hexChar (c : Char) : Bool :=
  c.isDigit ∨ ('a' ≤ c ∧ c ≤ 'f') ∨ ('A' ≤ c ∧ c ≤ 'F')

/-- Boolean prefix test on character lists (Python `str.startswith`). -/
def startsWith : List Char → List Char → Bool
  | [], _ => true
  | _ :: _, [] => false
  | a :: as, b :: bs => a == b && startsWith as bs

/-- Boolean suffix test on character lists (Python `str.endswith`). -/
def endsWith (pat s : List Char) : Bool :=
  startsWith pat.reverse s.reverse

/-- Substring containment (Python `in` on strings). -/
def hasSub (pat : List Char) : List Char → Bool
  | [] => pat.isEmpty
  | c :: rest => startsWith pat (c :: rest) || hasSub pat rest

/-- Split at the first occurrence of character `c`; `none` when absent
(Python `s.split(c, 1)` together with the `c in s` test). -/
def splitOnce (c : Char) : List Char → Option (List Char × List Char)
  | [] => none
  | x :: xs =>
    if x = c then some ([], xs)
    else (splitOnce c xs).map (fun p => (x :: p.1, p.2))

/-- Split at the first occurrence of a (nonempty) pattern. -/
def splitSub (pat : List Char) : List Char → Option (List Char × List Char)
  | [] => none
  | c :: rest =>
    if startsWith pat (c :: rest) then some ([], (c :: rest).drop pat.length)
    else (splitSub pat rest).map (fun p => (c :: p.1, p.2))

/-- Split on every occurrence of `'/'` (Python `s.split("/")`). -/
def splitSeg : List Char → List (List Char)
  | [] => [[]]
  | x :: xs =>
    if x = '/' then [] :: splitSeg xs
    else
      match splitSeg xs with
      | [] => [[x]]
      | s :: rest => (x :: s) :: rest

/-- Strip leading and trailing Python whitespace (`int()` accepts it). -/
def stripWs (s : List Char) : List Char :=
  ((s.dropWhile pyWs).reverse.dropWhile pyWs).reverse

/-- Digits (for predicate `isD`) with single underscores allowed between
digits, after at least one digit has been read: the tail grammar Python's
`int()` accepts. -/
def digitsTail (isD : Char → Bool) : List Char → Bool
  | [] => true
  | c :: rest =>
    if c = '_' then
      match rest with
      | [] => false
      | d :: rest2 => isD d && digitsTail isD rest2
    else isD c && digitsTail isD rest

/-- Nonempty digit string with single underscores between digits. -/
def digitsBody (isD : Char → Bool) : List Char → Bool
  | [] => false
  | d :: rest => isD d && digitsTail isD rest

/-- Decimal value of a digit string. -/
def decVal (l : List Char) : Nat :=
  l.foldl (fun a c => 10 * a + (c.toNat - 48)) 0

/-- Shared body of `pyInt`: sign applied to an all-digit (with underscores)
string. -/
def intBody (sgn : Int) (body : List Char) : Option Int :=
  if digitsBody Char.isDigit body then
    some (sgn * (decVal (body.filter (fun c => ¬ c = '_')) : Int))
  else none

/-- Model of Python `int(s)` on ASCII input: optional surrounding whitespace,
optional sign, decimal digits with single underscores between digits.
`none` models the `ValueError`. -/
def pyInt (s : List Char) : Option Int :=
  match stripWs s with
  | [] => none
  | c :: r =>
    if c = '+' then intBody 1 r
    else if c = '-' then intBody (-1) r
    else intBody 1 (c :: r)

/-- Model of the success of Python `int(s, 16)` on ASCII input: optional
whitespace, optional sign, optional `0x`/`0X` prefix, hex digits with
single underscores between digits.  Only success/failure is used by the
source (SHA validation). -/
def pyHexOk (s : List Char) : Bool :=
  match stripWs s with
  | [] => false
  | c :: r =>
    let body := if c = '+' ∨ c = '-' then r else c :: r
    let body2 :=
      match body with
      | c1 :: c2 :: r2 =>
        if c1 = '0' ∧ (c2 = 'x' ∨ c2 = 'X') then r2 else c1 :: c2 :: r2
      | _ => body
    digitsBody hexChar body2

/-- Model of Python `str.isdigit` on ASCII input: nonempty, every character a
decimal digit. -/
def pyIsDigit (s : List Char) : Bool :=
  ¬ s.isEmpty && s.all Char.isDigit

/-- Translation of `_valid_user` (parsing.py): length 1..39, characters from
letters/digits/hyphen, no leading or trailing hyphen. -/
def valid_user (user : List Char) : Bool :=
  if ¬ (1 ≤ user.length ∧ user.length ≤ 39) then false
  else if user.head? = some '-' ∨ user.getLast? = some '-' then false
  else user.all userChar

/-- Translation of `_valid_repository` (parsing.py): length 1..100,
characters from letters/digits/`-._`. -/
def valid_repository (repository : List Char) : Bool :=
  if ¬ (1 ≤ repository.length ∧ repository.length ≤ 100) then false
  else repository.all repoChar

/-- The forbidden phrases of `_validate_ref`. -/
def refPhrases : List (List Char) :=
  [("..").data, ("~").data, ("^").data, (":").data, ("?").data, ("*").data,
   ("[").data, ("\\").data, ("@\x7b").data, ("//").data, ("/.").data,
   (".lock/").data]

/-- The character-pair loop of `_validate_ref`: `true` when a whitespace
character occurs, or a `'.'` is immediately followed by `'/'` (the loop
starts with `last_char = ref[0]`, so it is called on the full list with the
head as initial `last_char`). -/
def refScanBad : Char → List Char → Bool
  | _, [] => false
  | last, c :: rest =>
    if pyWs c then true
    else if last = '.' ∧ c = '/' then true
    else refScanBad c rest

/-- Translation of `_validate_ref` (parsing.py). -/
def validate_ref (ref : List Char) : Bool :=
  match ref with
  | [] => false
  | c0 :: rest0 =>
    if c0 :: rest0 = ['@'] then false
    else if c0 = '.' ∨ c0 = '/' then false
    else if refPhrases.any (fun p => hasSub p (c0 :: rest0)) then false
    else if refScanBad c0 (c0 :: rest0) then false
    else if (splitSeg (c0 :: rest0)).any
        (fun comp => (endsWith ((".lock").data) comp ||
          endsWith ((".").data) comp) || startsWith ((".").data) comp) then false
    else true

/-- A repository reference, `models.Repo`. -/
structure Repo where
  name : List Char
  owner : List Char
deriving DecidableEq

/-- The closed set of resource values of `models.py`, flattened into one sum
type (the Python classes are frozen dataclasses with exactly these fields).

The `ref` constructor is the one resource the snapshot does not define.
Modelled from the spec: `parse_shorthand`'s `@ref` form "yields a tag/ref
resource" carrying the repository and the ref text; `models.Ref` is
referenced by `parsing.py` and by the tests but is missing from
`models.py`. -/
inductive GitHubResource where
  | user (login : List Char)
  | repoRes (r : Repo)
  | numbered (repo : Repo) (number : Int)
  | issue (repo : Repo) (number : Int)
  | issueComment (repo : Repo) (number : Int) (comment_id : Int)
  | issueEvent (repo : Repo) (number : Int) (event_id : Int)
  | pullRequest (repo : Repo) (number : Int)
  | pullRequestComment (repo : Repo) (number : Int) (comment_id : Int)
  | pullRequestReview (repo : Repo) (number : Int) (review_id : Int)
  | pullRequestReviewComment (repo : Repo) (number : Int) (comment_id : Int)
      (sha : Option (List Char)) (commit_page : Bool) (files_page : Bool)
  | pullRequestEvent (repo : Repo) (number : Int) (event_id : Int)
  | discussion (repo : Repo) (number : Int)
  | discussionComment (repo : Repo) (number : Int) (comment_id : Int)
  | commitRes (repo : Repo) (sha : List Char)
  | commitComment (repo : Repo) (sha : List Char) (comment_id : Int)
  | releaseTag (repo : Repo) (tag : List Char)
  | ref (repo : Repo) (refName : List Char)
deriving DecidableEq

/-- The `MatcherSettings` configuration record of `models.py`. -/
structure MatcherSettings where
  domains : List (List Char)
  issues : Bool
  issue_comments : Bool
  issue_events : Bool
  pull_requests : Bool
  pull_request_comments : Bool
  pull_request_reviews : Bool
  pull_request_review_comments : Bool
  pull_request_events : Bool
  discussions : Bool
  discussion_comments : Bool
  commits : Bool
  commit_comments : Bool
  releases : Bool
  shorthand : Bool
  short_repo : Bool
  short_numberables : Bool
  short_refs : Bool
  require_strict_type : Bool
deriving DecidableEq

/-- The default domain, `"github.com"`. -/
def hostGH : List Char := ("github.com").data

/-- The default field values of `MatcherSettings` (`_DEFAULT_MATCHER_SETTINGS`):
everything enabled, `domains = ["github.com"]`, `require_strict_type = True`. -/
def defaultSettings : MatcherSettings where
  domains := [hostGH]
  issues := true
  issue_comments := true
  issue_events := true
  pull_requests := true
  pull_request_comments := true
  pull_request_reviews := true
  pull_request_review_comments := true
  pull_request_events := true
  discussions := true
  discussion_comments := true
  commits := true
  commit_comments := true
  releases := true
  shorthand := true
  short_repo := true
  short_numberables := true
  short_refs := true
  require_strict_type := true

/-- Default settings with `require_strict_type=False`: the loose rule table
with every feature flag enabled. -/
def looseSettings : MatcherSettings :=
  { defaultSettings with require_strict_type := false }

/-- The decomposed form of a URL that the classifier consumes: yarl's
`absolute`, `host_port_subcomponent`, `parts` (with the leading `"/"`
pseudo-segment) and decoded `fragment`. -/
structure ParsedURL where
  absolute : Bool
  host_port_subcomponent : List Char
  parts : List (List Char)
  fragment : List Char

/-- The scheme separator `"://"`. -/
def schemeSep : List Char := ("://").data

/-- Modelled from the spec: the consumed URL-decomposition interface (spec
section 6), standing in for the external `yarl` library.  The fragment is
everything after the first `'#'`; a query (after `'?'`) is dropped from the
path; an absolute URL has a nonempty scheme before `"://"` and a nonempty
host, the host extending to the next `'/'`; path segments are the
`'/'`-separated pieces after the host, preceded by the `"/"` pseudo-segment
yarl places at index 0.  Userinfo, percent-decoding and host
normalisation are outside the modelled subset (no claim depends on them). -/
def urlOfString (s : List Char) : ParsedURL :=
  let fragSplit := splitOnce '#' s
  let beforeFrag := match fragSplit with | some p => p.1 | none => s
  let frag := match fragSplit with | some p => p.2 | none => []
  let beforeQuery := match splitOnce '?' beforeFrag with
    | some p => p.1
    | none => beforeFrag
  match splitSub schemeSep beforeQuery with
  | none =>
    { absolute := false, host_port_subcomponent := [], parts := [['/']],
      fragment := frag }
  | some (scheme, rest) =>
    let hostSplit := splitOnce '/' rest
    let host := match hostSplit with | some p => p.1 | none => rest
    if scheme.isEmpty || host.isEmpty then
      { absolute := false, host_port_subcomponent := host, parts := [['/']],
        fragment := frag }
    else
      { absolute := true, host_port_subcomponent := host,
        parts := ['/'] :: (match hostSplit with
          | some p => splitSeg p.2
          | none => []),
        fragment := frag }

/-- The `path_and_fragment` list every matcher builds: `parts`, the fragment
re-attached as a final `'#'`-prefixed pseudo-segment when nonempty, and the
leading `"/"` popped. -/
def pathAndFragment (u : ParsedURL) : List (List Char) :=
  (u.parts ++ (if u.fragment.isEmpty then [] else [('#' :: u.fragment)])).drop 1

/-- Translation of `_get_id_from_fragment`. -/
def get_id_from_fragment (u : ParsedURL) (pre : List Char) : Option (List Char) :=
  if startsWith pre u.fragment then some (u.fragment.drop pre.length) else none

/-- `_get_id_from_fragment` as used inside a guard's walrus assignment: Python
truthiness makes `None` and the empty string both fail the guard. -/
def fragIdTruthy (u : ParsedURL) (pre : List Char) : Option (List Char) :=
  match get_id_from_fragment u pre with
  | some l => if l.isEmpty then none else some l
  | none => none

def issuesKw : List Char := ("issues").data

def pullKw : List Char := ("pull").data

def discussionsKw : List Char := ("discussions").data

def commitsKw : List Char := ("commits").data

def filesKw : List Char := ("files").data

def commitKw : List Char := ("commit").data

def releasesKw : List Char := ("releases").data

def tagKw : List Char := ("tag").data

def rKw : List Char := ("r").data

def fIssue : List Char := ("#issue-").data

def fDiscussion : List Char := ("#discussion-").data

def fIssueComment : List Char := ("#issuecomment-").data

def fDiscussionComment : List Char := ("#discussioncomment-").data

def fEvent : List Char := ("#event-").data

def fReview : List Char := ("#pullrequestreview-").data

def fDiscussionR : List Char := ("#discussion_r").data

def fCommitComment : List Char := ("#commitcomment-").data

/-- The inner `match rest` of `_parse_strict_numberable_url`, after
`rest.insert(0, resource_type)`.  The Python `match` cases are ordered
top-to-bottom; cases of distinct list lengths never overlap, so they are
grouped by length here with the source order kept inside each group.  The
duplicated `["issues", fragment]`/`#issue-` case of the source is subsumed
by its first occurrence.  Every numeric parse in this table is wrapped in
`try`/`except` in the source, hence `Option`. -/
def strictDispatch (u : ParsedURL) (st : MatcherSettings) (repo : Repo)
    (rid : Int) : List (List Char) → Option GitHubResource
  | [t] =>
    if t = issuesKw ∧ st.issues then some (.issue repo rid)
    else if t = pullKw ∧ st.pull_requests then some (.pullRequest repo rid)
    else if t = discussionsKw ∧ st.discussions then some (.discussion repo rid)
    else none
  | [t, fragment] =>
    if t = issuesKw ∧ st.issues ∧ startsWith fIssue fragment then
      some (.issue repo rid)
    else if t = pullKw ∧ st.pull_requests ∧ startsWith fIssue fragment then
      some (.pullRequest repo rid)
    else if t = discussionsKw ∧ st.discussions ∧ startsWith fDiscussion fragment then
      some (.discussion repo rid)
    else if t = issuesKw ∧ st.issue_comments ∧ startsWith fIssueComment fragment then
      match pyInt (fragment.drop fIssueComment.length) with
      | none => none
      | some cid => some (.issueComment repo rid cid)
    else if t = pullKw ∧ st.pull_request_comments ∧ startsWith fIssueComment fragment then
      match pyInt (fragment.drop fIssueComment.length) with
      | none => none
      | some cid => some (.pullRequestComment repo rid cid)
    else if t = issuesKw ∧ st.issue_events ∧ startsWith fEvent fragment then
      match pyInt (fragment.drop fEvent.length) with
      | none => none
      | some eid => some (.issueEvent repo rid eid)
    else if t = pullKw ∧ st.pull_request_events ∧ startsWith fEvent fragment then
      match pyInt (fragment.drop fEvent.length) with
      | none => none
      | some eid => some (.pullRequestEvent repo rid eid)
    else if t = pullKw ∧ st.pull_request_reviews ∧ startsWith fReview fragment then
      match pyInt (fragment.drop fReview.length) with
      | none => none
      | some rvid => some (.pullRequestReview repo rid rvid)
    else if t = pullKw ∧ st.pull_request_review_comments ∧
        startsWith fDiscussionR fragment then
      match pyInt (fragment.drop fDiscussionR.length) with
      | none => none
      | some cid => some (.pullRequestReviewComment repo rid cid none false false)
    else if t = discussionsKw ∧ st.discussion_comments ∧
        startsWith fDiscussionComment fragment then
      match pyInt (fragment.drop fDiscussionComment.length) with
      | none => none
      | some cid => some (.discussionComment repo rid cid)
    else none
  | [t, sub, _fragment] =>
    if t = pullKw ∧ sub = filesKw ∧ st.pull_request_review_comments then
      match fragIdTruthy u rKw with
      | some fr =>
        match pyInt fr with
        | none => none
        | some cid => some (.pullRequestReviewComment repo rid cid none false true)
      | none => none
    else none
  | [t, sub, sha, _fragment] =>
    if t = pullKw ∧ sub = commitsKw ∧ st.pull_request_review_comments then
      match fragIdTruthy u rKw with
      | some fr =>
        if pyHexOk sha then
          match pyInt fr with
          | none => none
          | some cid =>
            some (.pullRequestReviewComment repo rid cid (some sha) true false)
        else none
      | none => none
    else none
  | _ => none

/-- Translation of `_parse_strict_numberable_url` (parsing.py). -/
def parse_strict_numberable_url (u : ParsedURL) (st : MatcherSettings) :
    Option GitHubResource :=
  match pathAndFragment u with
  | owner :: repository :: rt :: resource_id :: rest =>
    if rt = issuesKw ∨ rt = pullKw ∨ rt = discussionsKw then
      if !valid_user owner || !valid_repository repository then none
      else
        match pyInt resource_id with
        | none => none
        | some rid => strictDispatch u st ⟨repository, owner⟩ rid (rt :: rest)
    else none
  | _ => none

/-- Python exception escaping a matcher (uncaught `ValueError`). -/
inductive PyErr where
  | valueError
deriving DecidableEq

/-- The inner `match rest` of `_parse_loose_numberable_url`.  The two
`int(fragment)` calls in the `commits`/`files` sub-page branches are NOT
wrapped in `try`/`except` in the source, so a non-numeric id there is an
uncaught `ValueError`, modelled as `Except.error .valueError`. -/
def looseDispatch (u : ParsedURL) (st : MatcherSettings) (repo : Repo)
    (rid : Int) (rt : List Char) :
    List (List Char) → Except PyErr (Option GitHubResource)
  | [] =>
    if rt = issuesKw then
      .ok (if st.issues then some (.issue repo rid) else none)
    else if rt = pullKw then
      .ok (if st.pull_requests then some (.pullRequest repo rid) else none)
    else if rt = discussionsKw ∧ st.discussions then
      .ok (some (.discussion repo rid))
    else .ok none
  | [fragment] =>
    if startsWith fIssueComment fragment then
      match pyInt (fragment.drop fIssueComment.length) with
      | none => .ok none
      | some cid =>
        if rt = pullKw then
          .ok (if st.pull_request_comments then
            some (.pullRequestComment repo rid cid) else none)
        else
          .ok (if st.issue_comments then some (.issueComment repo rid cid) else none)
    else if st.discussion_comments ∧ startsWith fDiscussionComment fragment then
      match pyInt (fragment.drop fDiscussionComment.length) with
      | none => .ok none
      | some cid => .ok (some (.discussionComment repo rid cid))
    else if startsWith fIssue fragment ∨ startsWith fDiscussion fragment then
      if startsWith fIssue fragment then
        if rt = pullKw then
          .ok (if st.pull_requests then some (.pullRequest repo rid) else none)
        else .ok (if st.issues then some (.issue repo rid) else none)
      else .ok (if st.discussions then some (.discussion repo rid) else none)
    else if st.pull_request_review_comments ∧
        (startsWith fReview fragment ∨ startsWith fDiscussionR fragment) then
      if startsWith fReview fragment then
        match pyInt (fragment.drop fReview.length) with
        | none => .ok none
        | some rvid => .ok (some (.pullRequestReview repo rid rvid))
      else
        match pyInt (fragment.drop fDiscussionR.length) with
        | none => .ok none
        | some cid =>
          .ok (some (.pullRequestReviewComment repo rid cid none false false))
    else .ok none
  | [s1, _s2] =>
    if s1 = filesKw ∧ st.pull_request_review_comments ∧ rt = pullKw then
      match fragIdTruthy u rKw with
      | some fr =>
        match pyInt fr with
        | some cid =>
          .ok (some (.pullRequestReviewComment repo rid cid none false true))
        | none => .error .valueError
      | none => .ok none
    else .ok none
  | [s1, sha, _s3] =>
    if s1 = commitsKw ∧ st.pull_request_review_comments ∧ rt = pullKw then
      match fragIdTruthy u rKw with
      | some fr =>
        if pyHexOk sha then
          match pyInt fr with
          | some cid =>
            .ok (some (.pullRequestReviewComment repo rid cid (some sha) true false))
          | none => .error .valueError
        else .ok none
      | none => .ok none
    else .ok none
  | _ => .ok none

/-- Translation of `_parse_loose_numberable_url` (parsing.py). -/
def parse_loose_numberable_url (u : ParsedURL) (st : MatcherSettings) :
    Except PyErr (Option GitHubResource) :=
  match pathAndFragment u with
  | owner :: repository_name :: rt :: resource_id :: rest =>
    if rt = issuesKw ∨ rt = pullKw ∨ rt = discussionsKw then
      if !valid_user owner || !valid_repository repository_name then .ok none
      else
        match pyInt resource_id with
        | none => .ok none
        | some rid => looseDispatch u st ⟨repository_name, owner⟩ rid rt rest
    else .ok none
  | _ => .ok none

/-- The commit/release tail of `parse_url`'s final `match` (the duplicated
cases of the source are identical and subsumed). -/
def fallbackTail (st : MatcherSettings) (repo : Repo) :
    List (List Char) → Option GitHubResource
  | [a, b] =>
    if a = commitKw ∧ st.commits then some (.commitRes repo b) else none
  | [a, b, c] =>
    if a = commitKw ∧ st.commit_comments ∧ startsWith fCommitComment c then
      match pyInt (c.drop fCommitComment.length) with
      | none => none
      | some cid => some (.commitComment repo b cid)
    else if a = releasesKw ∧ b = tagKw ∧ st.releases then some (.releaseTag repo c)
    else none
  | _ => none

/-- The final `match path_and_fragment` of `parse_url` (parsing.py): user,
repository, commit, commit-comment and release-tag shapes. -/
def parse_url_fallback (st : MatcherSettings) :
    List (List Char) → Option GitHubResource
  | [] => none
  | owner :: rest =>
    if owner.isEmpty ∧ rest = [] then none
    else if valid_user owner then
      match rest with
      | [] => some (.user owner)
      | repository_name :: rest2 =>
        if valid_repository repository_name then
          match rest2 with
          | [] => some (.repoRes ⟨repository_name, owner⟩)
          | _ => fallbackTail st ⟨repository_name, owner⟩ rest2
        else none
    else none

/-- Translation of `parse_url` (parsing.py) over an already-decomposed URL
(the `yarl.URL` overload of the argument). -/
def parse_url_of (u : ParsedURL) (st : MatcherSettings) :
    Except PyErr (Option GitHubResource) :=
  if u.absolute = false ∨ u.host_port_subcomponent ∉ st.domains then .ok none
  else
    match (if st.require_strict_type then
        Except.ok (parse_strict_numberable_url u st)
      else parse_loose_numberable_url u st) with
    | .error e => .error e
    | .ok (some r) => .ok (some r)
    | .ok none => .ok (parse_url_fallback st (pathAndFragment u))

/-- Translation of `parse_url` (parsing.py) on a string argument. -/
def parse_url (s : List Char) (st : MatcherSettings) :
    Except PyErr (Option GitHubResource) :=
  parse_url_of (urlOfString s) st

/-- Outcome of the character loop shared by both `parse_shorthand`
implementations: an invalid character (`return None`), loop exhaustion
(Python's `for`/`else` branch), or a break at a `'#'`/`'@'` marker with the
accumulated repo name and the remaining characters
(`shorthand[len(repo) + 1 :]`). -/
inductive ScanOut where
  | bad
  | done (repoAcc : List Char)
  | cut (repoAcc : List Char) (marker : Char) (rest : List Char)
deriving DecidableEq

/-- The repo-scanning loop of `parse_shorthand`, identical in parsing.py and
`__init__.py`. -/
def scanRepo (acc : List Char) : List Char → ScanOut
  | [] => .done acc
  | c :: rest =>
    if c = '#' ∨ c = '@' then .cut acc c rest
    else if repoChar c then scanRepo (acc ++ [c]) rest
    else .bad

/-- The part of `parse_shorthand` (parsing.py) after the owner has been
determined: owner-character validation, repo scan, and the `#`/`@`
branches. -/
def shorthandBody (user rest : List Char) (st : MatcherSettings) :
    Option GitHubResource :=
  if ¬ user.all repoChar then none
  else
    match scanRepo [] rest with
    | .bad => none
    | .done repoAcc =>
      if st.short_repo then some (.repoRes ⟨repoAcc, user⟩) else none
    | .cut repoAcc m after =>
      if m = '#' then
        match pyInt after with
        | none => none
        | some number =>
          if number < 1 then none
          else if st.short_numberables then
            some (.numbered ⟨repoAcc, user⟩ number)
          else none
      else if m = '@' then
        if ¬ validate_ref after then none
        else if st.short_refs then some (.ref ⟨repoAcc, user⟩ after) else none
      else none

/-- Translation of `parse_shorthand` (parsing.py).  The `@` branch returns
`models.Ref`, the resource modelled from the spec (see `GitHubResource.ref`). -/
def parse_shorthand (shorthand : List Char) (default_user : Option (List Char))
    (st : MatcherSettings) : Option GitHubResource :=
  if ¬ st.shorthand then none
  else
    match splitOnce '/' shorthand with
    | some (user, rest) => shorthandBody user rest st
    | none =>
      match default_user with
      | none => none
      | some du => shorthandBody du shorthand st

/-- The part of `__init__.py`'s `parse_shorthand` after the owner has been
determined: identical to parsing.py until a marker is found, then `isdigit`
(no sign, zero allowed) instead of `int` with a positivity check, and an
unvalidated `ReleaseTag` instead of a validated `Ref`. -/
def shorthandBodyInit (user rest : List Char) (st : MatcherSettings) :
    Option GitHubResource :=
  if ¬ user.all repoChar then none
  else
    match scanRepo [] rest with
    | .bad => none
    | .done repoAcc =>
      if st.short_repo then some (.repoRes ⟨repoAcc, user⟩) else none
    | .cut repoAcc m after =>
      if m = '#' then
        if ¬ pyIsDigit after then none
        else if st.short_numberables then
          some (.numbered ⟨repoAcc, user⟩ (decVal after))
        else none
      else if m = '@' then
        if st.short_refs then some (.releaseTag ⟨repoAcc, user⟩ after) else none
      else none

/-- Translation of `parse_shorthand` as defined in `__init__.py`. -/
def parse_shorthand_init (shorthand : List Char)
    (default_user : Option (List Char)) (st : MatcherSettings) :
    Option GitHubResource :=
  if ¬ st.shorthand then none
  else
    match splitOnce '/' shorthand with
    | some (user, rest) => shorthandBodyInit user rest st
    | none =>
      match default_user with
      | none => none
      | some du => shorthandBodyInit du shorthand st

/-- Join path segments with `'/'` separators. -/
def joinSlash : List (List Char) → List Char
  | [] => []
  | [s] => s
  | s :: t :: rest => s ++ '/' :: joinSlash (t :: rest)

/-- The prefix `"https://github.com/"` of the built URLs. -/
def ghPreData : List Char := ("https://github.com/").data

/-- The scheme `"https"`. -/
def schemeHttps : List Char := ("https").data

/-- The host followed by the first path slash, `"github.com/"`. -/
def hostSlash : List Char := ("github.com/").data

/-- Build a `https://github.com/...` URL string from path segments and an
optional fragment. -/
def ghUrl (segs : List (List Char)) (frag : List Char) : List Char :=
  ghPreData ++ joinSlash segs ++ (if frag.isEmpty then [] else '#' :: frag)

/-- A path segment that survives URL decomposition verbatim: no `'/'`, no
`'#'`, no `'?'`. -/
def segOk (s : List Char) : Bool :=
  s.all (fun c => ¬ (c = '/' ∨ c = '#' ∨ c = '?'))

theorem not_mem_of_all {p : Char → Bool} {l : List Char} (h : l.all p = true)
    {c : Char} (hc : p c = false) : c ∉ l := by
  intro hm
  have hcp := List.all_eq_true.mp h c hm
  rw [hc] at hcp
  exact Bool.noConfusion hcp

theorem splitOnce_append {c : Char} {a : List Char} (b : List Char)
    (h : c ∉ a) : splitOnce c (a ++ c :: b) = some (a, b) := by
  induction a with
  | nil => simp [splitOnce]
  | cons x xs ih =>
    have hx : ¬ x = c := fun he => h (he ▸ List.mem_cons_self x xs)
    have hxs : c ∉ xs := fun hm => h (List.mem_cons_of_mem x hm)
    simp [splitOnce, hx, ih hxs]

theorem splitOnce_none {c : Char} {a : List Char} (h : c ∉ a) :
    splitOnce c a = none := by
  induction a with
  | nil => rfl
  | cons x xs ih =>
    have hx : ¬ x = c := fun he => h (he ▸ List.mem_cons_self x xs)
    have hxs : c ∉ xs := fun hm => h (List.mem_cons_of_mem x hm)
    simp [splitOnce, hx, ih hxs]

theorem splitSeg_single {a : List Char} (h : '/' ∉ a) : splitSeg a = [a] := by
  induction a with
  | nil => rfl
  | cons x xs ih =>
    have hx : ¬ x = '/' := fun he => h (he ▸ List.mem_cons_self x xs)
    have hxs : '/' ∉ xs := fun hm => h (List.mem_cons_of_mem x hm)
    simp [splitSeg, hx, ih hxs]

theorem splitSeg_append {a : List Char} (r : List Char) (h : '/' ∉ a) :
    splitSeg (a ++ '/' :: r) = a :: splitSeg r := by
  induction a with
  | nil => simp [splitSeg]
  | cons x xs ih =>
    have hx : ¬ x = '/' := fun he => h (he ▸ List.mem_cons_self x xs)
    have hxs : '/' ∉ xs := fun hm => h (List.mem_cons_of_mem x hm)
    simp only [List.cons_append, splitSeg, hx, if_false, List.append_eq, ih hxs]

theorem mem_joinSlash {c : Char} {segs : List (List Char)}
    (h : c ∈ joinSlash segs) : c = '/' ∨ ∃ s ∈ segs, c ∈ s := by
  induction segs with
  | nil => simp [joinSlash] at h
  | cons s rest ih =>
    cases rest with
    | nil =>
      simp only [joinSlash] at h
      exact Or.inr ⟨s, List.mem_cons_self s [], h⟩
    | cons t rest2 =>
      simp only [joinSlash, List.mem_append, List.mem_cons] at h
      rcases h with h | h | h
      · exact Or.inr ⟨s, List.mem_cons_self _ _, h⟩
      · exact Or.inl h
      · rcases ih h with h' | ⟨s', hs', hc⟩
        · exact Or.inl h'
        · exact Or.inr ⟨s', List.mem_cons_of_mem _ hs', hc⟩

theorem not_mem_joinSlash {c : Char} {segs : List (List Char)}
    (hc : ¬ c = '/') (h : ∀ s ∈ segs, c ∉ s) : c ∉ joinSlash segs := by
  intro hm
  rcases mem_joinSlash hm with h' | ⟨s, hs, hcs⟩
  · exact hc h'
  · exact h s hs hcs

theorem splitSeg_joinSlash {segs : List (List Char)} (hne : segs ≠ [])
    (h : ∀ s ∈ segs, '/' ∉ s) : splitSeg (joinSlash segs) = segs := by
  induction segs with
  | nil => exact absurd rfl hne
  | cons s rest ih =>
    cases rest with
    | nil => exact splitSeg_single (h s (List.mem_cons_self s []))
    | cons t rest2 =>
      have hs : '/' ∉ s := h s (List.mem_cons_self _ _)
      have hrest : ∀ x ∈ t :: rest2, '/' ∉ x :=
        fun x hx => h x (List.mem_cons_of_mem _ hx)
      have : joinSlash (s :: t :: rest2) = s ++ '/' :: joinSlash (t :: rest2) := rfl
      rw [this, splitSeg_append _ hs, ih (by simp) hrest]

theorem splitSub_scheme (r : List Char) :
    splitSub schemeSep (ghPreData ++ r) = some (schemeHttps, hostSlash ++ r) := rfl

theorem splitOnce_host (r : List Char) :
    splitOnce '/' (hostSlash ++ r) = some (hostGH, r) := rfl

theorem schemeHttps_ne_empty : schemeHttps.isEmpty = false := rfl

theorem hostGH_ne_empty : hostGH.isEmpty = false := rfl

/-- Decomposition of a `https://github.com/...` URL built from safe path
segments and a fragment: the modelled yarl collaborator returns exactly the
segments and the fragment. -/
theorem urlOfString_ghUrl (segs : List (List Char)) (frag : List Char)
    (hne : segs ≠ []) (h : ∀ s ∈ segs, segOk s = true) :
    urlOfString (ghUrl segs frag) =
      { absolute := true, host_port_subcomponent := hostGH,
        parts := ['/'] :: segs, fragment := frag } := by
  have hseg : ∀ s ∈ segs, '/' ∉ s ∧ '#' ∉ s ∧ '?' ∉ s := by
    intro s hs
    have hall := h s hs
    unfold segOk at hall
    exact ⟨not_mem_of_all hall (by decide), not_mem_of_all hall (by decide),
      not_mem_of_all hall (by decide)⟩
  have hjs : '#' ∉ joinSlash segs :=
    not_mem_joinSlash (by decide) (fun s hs => (hseg s hs).2.1)
  have hjq : '?' ∉ joinSlash segs :=
    not_mem_joinSlash (by decide) (fun s hs => (hseg s hs).2.2)
  have hpre : '#' ∉ ghPreData ++ joinSlash segs := by
    intro hm
    rcases List.mem_append.mp hm with hm | hm
    · revert hm; decide
    · exact hjs hm
  have hpq : '?' ∉ ghPreData ++ joinSlash segs := by
    intro hm
    rcases List.mem_append.mp hm with hm | hm
    · revert hm; decide
    · exact hjq hm
  have hsegsplit : splitSeg (joinSlash segs) = segs :=
    splitSeg_joinSlash hne (fun s hs => (hseg s hs).1)
  by_cases hf : frag = []
  · have hgh : ghUrl segs frag = ghPreData ++ joinSlash segs := by
      subst hf
      unfold ghUrl
      simp
    rw [hgh]
    unfold urlOfString
    simp only [splitOnce_none hpre, splitOnce_none hpq, splitSub_scheme,
      splitOnce_host, hsegsplit, schemeHttps_ne_empty, hostGH_ne_empty,
      Bool.or_self, Bool.false_eq_true, if_false, hf]
  · have hfe : frag.isEmpty = false := by
      cases frag with
      | nil => exact absurd rfl hf
      | cons a b => rfl
    have hgh : ghUrl segs frag = (ghPreData ++ joinSlash segs) ++ '#' :: frag := by
      unfold ghUrl
      rw [hfe]
      simp [List.append_assoc]
    rw [hgh]
    unfold urlOfString
    simp only [splitOnce_append frag hpre, splitOnce_none hpq, splitSub_scheme,
      splitOnce_host, hsegsplit, schemeHttps_ne_empty, hostGH_ne_empty,
      Bool.or_self, Bool.false_eq_true, if_false]

theorem dropWhile_of_all_neg {p : Char → Bool} {l : List Char}
    (h : ∀ c ∈ l, p c = false) : l.dropWhile p = l := by
  cases l with
  | nil => rfl
  | cons c rest => simp [List.dropWhile, h c (List.mem_cons_self _ _)]

theorem stripWs_of_no_ws {l : List Char} (h : ∀ c ∈ l, pyWs c = false) :
    stripWs l = l := by
  unfold stripWs
  rw [dropWhile_of_all_neg h,
    dropWhile_of_all_neg (fun c hc => h c (List.mem_reverse.mp hc)),
    List.reverse_reverse]

theorem isDigit_not_ws {c : Char} (h : c.isDigit = true) : pyWs c = false := by
  simp only [pyWs, decide_eq_false_iff_not]
  rintro (rfl | rfl | rfl | rfl | rfl | rfl) <;> exact absurd h (by decide)

theorem hexChar_not_ws {c : Char} (h : hexChar c = true) : pyWs c = false := by
  simp only [pyWs, decide_eq_false_iff_not]
  rintro (rfl | rfl | rfl | rfl | rfl | rfl) <;> exact absurd h (by decide)

theorem digitsTail_of_all {isD : Char → Bool} (hu : isD '_' = false)
    {l : List Char} (h : l.all isD = true) : digitsTail isD l = true := by
  induction l with
  | nil => rfl
  | cons c rest ih =>
    simp only [List.all_cons, Bool.and_eq_true] at h
    have hc : ¬ c = '_' := fun he => by rw [he, hu] at h; exact Bool.noConfusion h.1
    unfold digitsTail
    simp [hc, h.1, ih h.2]

theorem digitsBody_of_all {isD : Char → Bool} (hu : isD '_' = false)
    {l : List Char} (h : l.all isD = true) (hne : l ≠ []) :
    digitsBody isD l = true := by
  cases l with
  | nil => exact absurd rfl hne
  | cons c rest =>
    simp only [List.all_cons, Bool.and_eq_true] at h
    unfold digitsBody
    simp [h.1, digitsTail_of_all hu h.2]

/-- `int()` on a plain nonempty digit string returns its decimal value. -/
theorem pyInt_digits {l : List Char} (h : l.all Char.isDigit = true)
    (hne : l ≠ []) : pyInt l = some ((decVal l : Nat) : Int) := by
  have hstrip : stripWs l = l :=
    stripWs_of_no_ws (fun c hc => isDigit_not_ws (List.all_eq_true.mp h c hc))
  cases l with
  | nil => exact absurd rfl hne
  | cons c r =>
    have hc : Char.isDigit c = true :=
      List.all_eq_true.mp h c (List.mem_cons_self _ _)
    have hplus : ¬ c = '+' := fun he => absurd hc (by rw [he]; decide)
    have hminus : ¬ c = '-' := fun he => absurd hc (by rw [he]; decide)
    have hfil : (c :: r).filter (fun x => ¬ x = '_') = c :: r := by
      rw [List.filter_eq_self]
      intro a ha
      have hd := List.all_eq_true.mp h a ha
      have : ¬ a = '_' := fun he => absurd hd (by rw [he]; decide)
      simpa using this
    unfold pyInt
    rw [hstrip]
    simp only [if_neg hplus, if_neg hminus]
    unfold intBody
    rw [if_pos (digitsBody_of_all (by decide) h (by simp)), hfil, one_mul]

/-- `int(s, 16)` succeeds on a plain nonempty hex-digit string. -/
theorem pyHexOk_hex {l : List Char} (h : l.all hexChar = true) (hne : l ≠ []) :
    pyHexOk l = true := by
  have hstrip : stripWs l = l :=
    stripWs_of_no_ws (fun c hc => hexChar_not_ws (List.all_eq_true.mp h c hc))
  cases l with
  | nil => exact absurd rfl hne
  | cons c r =>
    have hc : hexChar c = true := List.all_eq_true.mp h c (List.mem_cons_self _ _)
    have hsgn : ¬ (c = '+' ∨ c = '-') := by
      rintro (rfl | rfl) <;> exact absurd hc (by decide)
    unfold pyHexOk
    rw [hstrip]
    simp only [if_neg hsgn]
    cases r with
    | nil => exact digitsBody_of_all (by decide) h (by simp)
    | cons c2 r2 =>
      have hc2 : hexChar c2 = true := by
        have := List.all_eq_true.mp h c2 (by simp)
        exact this
      have hnx : ¬ (c = '0' ∧ (c2 = 'x' ∨ c2 = 'X')) := by
        rintro ⟨-, rfl | rfl⟩ <;> exact absurd hc2 (by decide)
      simp only [if_neg hnx]
      exact digitsBody_of_all (by decide) h (by simp)

theorem valid_user_parts {u : List Char} (h : valid_user u = true) :
    u ≠ [] ∧ u.all userChar = true := by
  unfold valid_user at h
  split at h
  · exact Bool.noConfusion h
  · split at h
    · exact Bool.noConfusion h
    · rename_i h1 _
      refine ⟨?_, h⟩
      intro he
      subst he
      simp at h1

theorem valid_repository_parts {r : List Char} (h : valid_repository r = true) :
    r ≠ [] ∧ r.all repoChar = true := by
  unfold valid_repository at h
  split at h
  · exact Bool.noConfusion h
  · rename_i h1
    refine ⟨?_, h⟩
    intro he
    subst he
    simp at h1

theorem segOk_of_all {p : Char → Bool}
    (hs : p '/' = false) (hh : p '#' = false) (hq : p '?' = false)
    {u : List Char} (h : u.all p = true) : segOk u = true := by
  unfold segOk
  rw [List.all_eq_true]
  intro c hc
  have hpc := List.all_eq_true.mp h c hc
  simp only [decide_eq_true_eq]
  rintro (rfl | rfl | rfl)
  · rw [hs] at hpc; exact Bool.noConfusion hpc
  · rw [hh] at hpc; exact Bool.noConfusion hpc
  · rw [hq] at hpc; exact Bool.noConfusion hpc

theorem isEmpty_false_of_ne {l : List Char} (h : l ≠ []) : l.isEmpty = false := by
  cases l with
  | nil => exact absurd rfl h
  | cons c r => rfl

theorem pathAndFragment_mk (host : List Char) (segs : List (List Char))
    (frag : List Char) :
    pathAndFragment ⟨true, host, ['/'] :: segs, frag⟩ =
      segs ++ (if frag.isEmpty then [] else [('#' :: frag)]) := rfl

theorem parse_url_ghUrl (segs : List (List Char)) (frag : List Char)
    (st : MatcherSettings) (hne : segs ≠ []) (hsegs : ∀ s ∈ segs, segOk s = true) :
    parse_url (ghUrl segs frag) st =
      parse_url_of ⟨true, hostGH, ['/'] :: segs, frag⟩ st := by
  unfold parse_url
  rw [urlOfString_ghUrl _ _ hne hsegs]

theorem parse_url_of_eval (u : ParsedURL) (st : MatcherSettings)
    (habs : u.absolute = true) (hdom : u.host_port_subcomponent ∈ st.domains) :
    parse_url_of u st =
      match (if st.require_strict_type then
          Except.ok (parse_strict_numberable_url u st)
        else parse_loose_numberable_url u st) with
      | .error e => .error e
      | .ok (some r) => .ok (some r)
      | .ok none => .ok (parse_url_fallback st (pathAndFragment u)) := by
  unfold parse_url_of
  rw [if_neg]
  intro hc
  rcases hc with hc | hc
  · rw [habs] at hc
    exact Bool.noConfusion hc
  · exact hc hdom

theorem strict_numberable_eval (u : ParsedURL) (st : MatcherSettings)
    (owner repoName rt numStr : List Char) (rest : List (List Char)) (n : Int)
    (hpf : pathAndFragment u = owner :: repoName :: rt :: numStr :: rest)
    (hrt : rt = issuesKw ∨ rt = pullKw ∨ rt = discussionsKw)
    (ho : valid_user owner = true) (hr : valid_repository repoName = true)
    (hnum : pyInt numStr = some n) :
    parse_strict_numberable_url u st =
      strictDispatch u st ⟨repoName, owner⟩ n (rt :: rest) := by
  unfold parse_strict_numberable_url
  rw [hpf]
  simp only [if_pos hrt, ho, hr, hnum, Bool.not_true, Bool.or_self,
    Bool.false_eq_true, if_false]

theorem loose_numberable_eval (u : ParsedURL) (st : MatcherSettings)
    (owner repoName rt numStr : List Char) (rest : List (List Char)) (n : Int)
    (hpf : pathAndFragment u = owner :: repoName :: rt :: numStr :: rest)
    (hrt : rt = issuesKw ∨ rt = pullKw ∨ rt = discussionsKw)
    (ho : valid_user owner = true) (hr : valid_repository repoName = true)
    (hnum : pyInt numStr = some n) :
    parse_loose_numberable_url u st =
      looseDispatch u st ⟨repoName, owner⟩ n rt rest := by
  unfold parse_loose_numberable_url
  rw [hpf]
  simp only [if_pos hrt, ho, hr, hnum, Bool.not_true, Bool.or_self,
    Bool.false_eq_true, if_false]

/-- The commit/release fallback never matches a path whose third segment is
one of the numberable keywords. -/
theorem fallback_numberable (st : MatcherSettings)
    (owner repoName t numStr : List Char) (more : List (List Char))
    (ho : valid_user owner = true) (hr : valid_repository repoName = true)
    (ht : ¬ t = commitKw) (ht2 : ¬ t = releasesKw) :
    parse_url_fallback st (owner :: repoName :: t :: numStr :: more) = none := by
  have hone : ¬ (owner.isEmpty = true ∧
      (repoName :: t :: numStr :: more : List (List Char)) = []) := by
    rintro ⟨-, hc⟩
    exact List.noConfusion hc
  simp only [parse_url_fallback]
  rw [if_neg hone]
  simp only [ho, hr, if_true]
  cases more with
  | nil =>
    simp only [fallbackTail]
    rw [if_neg (fun hc : t = commitKw ∧ st.commits = true => ht hc.1)]
  | cons m1 more2 =>
    cases more2 with
    | nil =>
      simp only [fallbackTail]
      rw [if_neg (fun hc : t = commitKw ∧ st.commit_comments = true ∧
            startsWith fCommitComment m1 = true => ht hc.1),
        if_neg (fun hc : t = releasesKw ∧ numStr = tagKw ∧ st.releases = true =>
          ht2 hc.1)]
    | cons m2 more3 => rfl

theorem segOk_userStr {u : List Char} (h : u.all userChar = true) :
    segOk u = true :=
  segOk_of_all (by decide) (by decide) (by decide) h

theorem segOk_repoStr {u : List Char} (h : u.all repoChar = true) :
    segOk u = true :=
  segOk_of_all (by decide) (by decide) (by decide) h

theorem segOk_digitStr {u : List Char} (h : u.all Char.isDigit = true) :
    segOk u = true :=
  segOk_of_all (by decide) (by decide) (by decide) h

theorem hostGH_mem_default : hostGH ∈ defaultSettings.domains :=
  List.mem_singleton.mpr rfl

theorem hostGH_mem_loose : hostGH ∈ looseSettings.domains :=
  List.mem_singleton.mpr rfl

/-- C7: with default settings, for every owner accepted by the username
validator, every repository name accepted by the repository validator and
every (digit-string) issue number, `parse_url` of
`https://github.com/{owner}/{repo}/issues/{number}` returns the `Issue`
resource carrying that repository and number. -/
theorem c7_parse_url_issue (owner repoName numStr : List Char)
    (ho : valid_user owner = true) (hr : valid_repository repoName = true)
    (hn : numStr ≠ []) (hd : numStr.all Char.isDigit = true) :
    parse_url (ghUrl [owner, repoName, issuesKw, numStr] []) defaultSettings =
      .ok (some (.issue ⟨repoName, owner⟩ (decVal numStr))) := by
  have hsegs : ∀ s ∈ [owner, repoName, issuesKw, numStr], segOk s = true := by
    intro s hs
    simp only [List.mem_cons, List.not_mem_nil, or_false] at hs
    rcases hs with rfl | rfl | rfl | rfl
    · exact segOk_userStr (valid_user_parts ho).2
    · exact segOk_repoStr (valid_repository_parts hr).2
    · decide
    · exact segOk_digitStr hd
  rw [parse_url_ghUrl _ _ _ (by simp) hsegs]
  rw [parse_url_of_eval _ _ rfl hostGH_mem_default]
  rw [if_pos (show defaultSettings.require_strict_type = true from rfl)]
  rw [strict_numberable_eval _ _ owner repoName issuesKw numStr [] _
    (by rw [pathAndFragment_mk]; simp) (Or.inl rfl) ho hr (pyInt_digits hd hn)]
  have hdisp : strictDispatch
      ⟨true, hostGH, ['/'] :: [owner, repoName, issuesKw, numStr], []⟩
      defaultSettings ⟨repoName, owner⟩ ((decVal numStr : Nat) : Int)
      [issuesKw] = some (.issue ⟨repoName, owner⟩ (decVal numStr)) := by
    simp only [strictDispatch]
    rw [if_pos ⟨trivial, rfl⟩]
  rw [hdisp]

/-- Witness for C7 at `https://github.com/octocat/Hello-World/issues/42`. -/
theorem c7_parse_url_issue_witness :
    valid_user (("octocat").data) = true ∧
    valid_repository (("Hello-World").data) = true ∧
    parse_url (ghUrl [("octocat").data, ("Hello-World").data, issuesKw,
        ("42").data] []) defaultSettings =
      .ok (some (.issue ⟨("Hello-World").data, ("octocat").data⟩ 42)) :=
  ⟨by decide, by decide,
    c7_parse_url_issue (("octocat").data) (("Hello-World").data) (("42").data)
      (by decide) (by decide) (by decide) (by decide)⟩

/-- Under the strict table, an `/issues/{n}` URL whose fragment matches none
of the issue-compatible prefixes (`#issue-`, `#issuecomment-`, `#event-`)
yields no match with default settings. -/
theorem strict_issues_fragment_none (owner repoName numStr f : List Char)
    (ho : valid_user owner = true) (hr : valid_repository repoName = true)
    (hn : numStr ≠ []) (hd : numStr.all Char.isDigit = true)
    (hfe : f.isEmpty = false)
    (h1 : startsWith fIssue ('#' :: f) = false)
    (h2 : startsWith fIssueComment ('#' :: f) = false)
    (h3 : startsWith fEvent ('#' :: f) = false) :
    parse_url (ghUrl [owner, repoName, issuesKw, numStr] f) defaultSettings =
      .ok none := by
  have hsegs : ∀ s ∈ [owner, repoName, issuesKw, numStr], segOk s = true := by
    intro s hs
    simp only [List.mem_cons, List.not_mem_nil, or_false] at hs
    rcases hs with rfl | rfl | rfl | rfl
    · exact segOk_userStr (valid_user_parts ho).2
    · exact segOk_repoStr (valid_repository_parts hr).2
    · decide
    · exact segOk_digitStr hd
  have hpf : pathAndFragment
      ⟨true, hostGH, ['/'] :: [owner, repoName, issuesKw, numStr], f⟩ =
      owner :: repoName :: issuesKw :: numStr :: [('#' :: f)] := by
    rw [pathAndFragment_mk, hfe]
    rfl
  rw [parse_url_ghUrl _ _ _ (by simp) hsegs]
  rw [parse_url_of_eval _ _ rfl hostGH_mem_default]
  rw [if_pos (show defaultSettings.require_strict_type = true from rfl)]
  rw [strict_numberable_eval _ _ owner repoName issuesKw numStr [('#' :: f)] _
    hpf (Or.inl rfl) ho hr (pyInt_digits hd hn)]
  have hdisp : strictDispatch
      ⟨true, hostGH, ['/'] :: [owner, repoName, issuesKw, numStr], f⟩
      defaultSettings ⟨repoName, owner⟩ ((decVal numStr : Nat) : Int)
      [issuesKw, ('#' :: f)] = none := by
    have hp : ¬ issuesKw = pullKw := by decide
    have hdsc : ¬ issuesKw = discussionsKw := by decide
    simp only [strictDispatch]
    simp [h1, h2, h3, hp, hdsc]
  rw [hpf, fallback_numberable defaultSettings owner repoName issuesKw numStr
    [('#' :: f)] ho hr (by decide) (by decide), hdisp]

/-- C3: under strict mode with default settings, a fragment of a kind
incompatible with the `/issues/` path keyword yields no match for every
valid owner, repository and number, even when the numeric id is
well-formed: both `#discussioncomment-{id}` and `#pullrequestreview-{id}`
under `/issues/{n}` produce `None`. -/
theorem c3_strict_cross_kind_no_match (owner repoName numStr idStr : List Char)
    (ho : valid_user owner = true) (hr : valid_repository repoName = true)
    (hn : numStr ≠ []) (hd : numStr.all Char.isDigit = true)
    (hi : idStr ≠ []) (hid : idStr.all Char.isDigit = true) :
    parse_url (ghUrl [owner, repoName, issuesKw, numStr]
        ((("discussioncomment-").data) ++ idStr)) defaultSettings = .ok none ∧
    parse_url (ghUrl [owner, repoName, issuesKw, numStr]
        ((("pullrequestreview-").data) ++ idStr)) defaultSettings = .ok none := by
  constructor
  · exact strict_issues_fragment_none owner repoName numStr _ ho hr hn hd
      rfl rfl rfl rfl
  · exact strict_issues_fragment_none owner repoName numStr _ ho hr hn hd
      rfl rfl rfl rfl

/-- Witness for C3 at `.../owner/repo/issues/123` with ids `456`. -/
theorem c3_strict_cross_kind_no_match_witness :
    valid_user (("owner").data) = true ∧
    parse_url (ghUrl [("owner").data, ("repo").data, issuesKw, ("123").data]
        ((("discussioncomment-").data) ++ ("456").data)) defaultSettings =
      .ok none ∧
    parse_url (ghUrl [("owner").data, ("repo").data, issuesKw, ("123").data]
        ((("pullrequestreview-").data) ++ ("456").data)) defaultSettings =
      .ok none := by
  have h := c3_strict_cross_kind_no_match (("owner").data) (("repo").data)
    (("123").data) (("456").data) (by decide) (by decide) (by decide)
    (by decide) (by decide) (by decide)
  exact ⟨by decide, h.1, h.2⟩

theorem segOk_kw {rt : List Char}
    (hrt : rt = issuesKw ∨ rt = pullKw ∨ rt = discussionsKw) : segOk rt = true := by
  rcases hrt with rfl | rfl | rfl <;> decide

theorem kw_ne_commit {rt : List Char}
    (hrt : rt = issuesKw ∨ rt = pullKw ∨ rt = discussionsKw) : ¬ rt = commitKw := by
  rcases hrt with rfl | rfl | rfl <;> decide

theorem kw_ne_releases {rt : List Char}
    (hrt : rt = issuesKw ∨ rt = pullKw ∨ rt = discussionsKw) :
    ¬ rt = releasesKw := by
  rcases hrt with rfl | rfl | rfl <;> decide

/-- Entry lemma for loose-mode claims whose dispatch succeeds: a
`github.com` URL with a numberable path reduces to its `looseDispatch`
result. -/
theorem loose_entry_some (owner repoName rt numStr : List Char)
    (more : List (List Char)) (f : List Char) (r : GitHubResource)
    (hrt : rt = issuesKw ∨ rt = pullKw ∨ rt = discussionsKw)
    (ho : valid_user owner = true) (hr : valid_repository repoName = true)
    (hn : numStr ≠ []) (hd : numStr.all Char.isDigit = true)
    (hmore : ∀ s ∈ more, segOk s = true) (hfe : f.isEmpty = false)
    (hdisp : looseDispatch
        ⟨true, hostGH, ['/'] :: ([owner, repoName, rt, numStr] ++ more), f⟩
        looseSettings ⟨repoName, owner⟩ ((decVal numStr : Nat) : Int) rt
        (more ++ [('#' :: f)]) = .ok (some r)) :
    parse_url (ghUrl ([owner, repoName, rt, numStr] ++ more) f) looseSettings =
      .ok (some r) := by
  have hsegs : ∀ s ∈ [owner, repoName, rt, numStr] ++ more, segOk s = true := by
    intro s hs
    rcases List.mem_append.mp hs with hs | hs
    · simp only [List.mem_cons, List.not_mem_nil, or_false] at hs
      rcases hs with rfl | rfl | rfl | rfl
      · exact segOk_userStr (valid_user_parts ho).2
      · exact segOk_repoStr (valid_repository_parts hr).2
      · exact segOk_kw hrt
      · exact segOk_digitStr hd
    · exact hmore s hs
  have hpf : pathAndFragment
      ⟨true, hostGH, ['/'] :: ([owner, repoName, rt, numStr] ++ more), f⟩ =
      owner :: repoName :: rt :: numStr :: (more ++ [('#' :: f)]) := by
    rw [pathAndFragment_mk, hfe]
    simp
  rw [parse_url_ghUrl _ _ _ (by simp) hsegs]
  rw [parse_url_of_eval _ _ rfl hostGH_mem_loose]
  rw [if_neg (show ¬ looseSettings.require_strict_type = true from by decide)]
  rw [loose_numberable_eval _ _ owner repoName rt numStr
    (more ++ [('#' :: f)]) _ hpf hrt ho hr (pyInt_digits hd hn)]
  rw [hdisp]

/-- Entry lemma for loose-mode claims whose dispatch and fallback both fail:
the parse yields no match. -/
theorem loose_entry_none (owner repoName rt numStr : List Char)
    (more : List (List Char)) (f : List Char)
    (hrt : rt = issuesKw ∨ rt = pullKw ∨ rt = discussionsKw)
    (ho : valid_user owner = true) (hr : valid_repository repoName = true)
    (hn : numStr ≠ []) (hd : numStr.all Char.isDigit = true)
    (hmore : ∀ s ∈ more, segOk s = true) (hfe : f.isEmpty = false)
    (hdisp : looseDispatch
        ⟨true, hostGH, ['/'] :: ([owner, repoName, rt, numStr] ++ more), f⟩
        looseSettings ⟨repoName, owner⟩ ((decVal numStr : Nat) : Int) rt
        (more ++ [('#' :: f)]) = .ok none) :
    parse_url (ghUrl ([owner, repoName, rt, numStr] ++ more) f) looseSettings =
      .ok none := by
  have hsegs : ∀ s ∈ [owner, repoName, rt, numStr] ++ more, segOk s = true := by
    intro s hs
    rcases List.mem_append.mp hs with hs | hs
    · simp only [List.mem_cons, List.not_mem_nil, or_false] at hs
      rcases hs with rfl | rfl | rfl | rfl
      · exact segOk_userStr (valid_user_parts ho).2
      · exact segOk_repoStr (valid_repository_parts hr).2
      · exact segOk_kw hrt
      · exact segOk_digitStr hd
    · exact hmore s hs
  have hpf : pathAndFragment
      ⟨true, hostGH, ['/'] :: ([owner, repoName, rt, numStr] ++ more), f⟩ =
      owner :: repoName :: rt :: numStr :: (more ++ [('#' :: f)]) := by
    rw [pathAndFragment_mk, hfe]
    simp
  rw [parse_url_ghUrl _ _ _ (by simp) hsegs]
  rw [parse_url_of_eval _ _ rfl hostGH_mem_loose]
  rw [if_neg (show ¬ looseSettings.require_strict_type = true from by decide)]
  rw [loose_numberable_eval _ _ owner repoName rt numStr
    (more ++ [('#' :: f)]) _ hpf hrt ho hr (pyInt_digits hd hn)]
  rw [hpf, fallback_numberable looseSettings owner repoName rt numStr
    (more ++ [('#' :: f)]) ho hr (kw_ne_commit hrt) (kw_ne_releases hrt), hdisp]

theorem looseDispatch_issuecomment (u : ParsedURL) (st : MatcherSettings)
    (repo : Repo) (n : Int) (rt idStr : List Char)
    (hi : idStr ≠ []) (hid : idStr.all Char.isDigit = true) :
    looseDispatch u st repo n rt [('#' :: (("issuecomment-").data ++ idStr))] =
      (if rt = pullKw then
        .ok (if st.pull_request_comments then
          some (.pullRequestComment repo n (decVal idStr)) else none)
      else
        .ok (if st.issue_comments then
          some (.issueComment repo n (decVal idStr)) else none)) := by
  simp only [looseDispatch]
  rw [if_pos (show startsWith fIssueComment
    ('#' :: (("issuecomment-").data ++ idStr)) = true from rfl)]
  rw [show ('#' :: (("issuecomment-").data ++ idStr)).drop fIssueComment.length
    = idStr from rfl]
  rw [pyInt_digits hid hi]

theorem looseDispatch_discussioncomment (u : ParsedURL) (st : MatcherSettings)
    (repo : Repo) (n : Int) (rt idStr : List Char)
    (hi : idStr ≠ []) (hid : idStr.all Char.isDigit = true)
    (hdc : st.discussion_comments = true) :
    looseDispatch u st repo n rt
        [('#' :: (("discussioncomment-").data ++ idStr))] =
      .ok (some (.discussionComment repo n (decVal idStr))) := by
  have s1 : startsWith fIssueComment
      ('#' :: (("discussioncomment-").data ++ idStr)) = false := rfl
  have s2 : startsWith fDiscussionComment
      ('#' :: (("discussioncomment-").data ++ idStr)) = true := rfl
  have hdrop : ('#' :: (("discussioncomment-").data ++ idStr)).drop
      fDiscussionComment.length = idStr := rfl
  simp only [looseDispatch, s1, s2, hdrop, Bool.false_eq_true, if_false, hdc,
    and_self, if_true, pyInt_digits hid hi, true_and]

/-- C5: under loose mode with all flags enabled, `#issuecomment-{id}` yields
`IssueComment` for the `issues` and `discussions` path keywords and
`PullRequestComment` for `pull`, while `#discussioncomment-{id}` yields
`DiscussionComment` under all three keywords (in particular,
`#issuecomment-` under `/discussions/` yields `IssueComment`, not
`DiscussionComment`). -/
theorem c5_loose_fragment_mapping (owner repoName numStr idStr : List Char)
    (ho : valid_user owner = true) (hr : valid_repository repoName = true)
    (hn : numStr ≠ []) (hd : numStr.all Char.isDigit = true)
    (hi : idStr ≠ []) (hid : idStr.all Char.isDigit = true) :
    (parse_url (ghUrl [owner, repoName, issuesKw, numStr]
        ((("issuecomment-").data) ++ idStr)) looseSettings =
      .ok (some (.issueComment ⟨repoName, owner⟩ (decVal numStr) (decVal idStr))) ∧
    parse_url (ghUrl [owner, repoName, discussionsKw, numStr]
        ((("issuecomment-").data) ++ idStr)) looseSettings =
      .ok (some (.issueComment ⟨repoName, owner⟩ (decVal numStr) (decVal idStr))) ∧
    parse_url (ghUrl [owner, repoName, pullKw, numStr]
        ((("issuecomment-").data) ++ idStr)) looseSettings =
      .ok (some (.pullRequestComment ⟨repoName, owner⟩ (decVal numStr)
        (decVal idStr)))) ∧
    (parse_url (ghUrl [owner, repoName, issuesKw, numStr]
        ((("discussioncomment-").data) ++ idStr)) looseSettings =
      .ok (some (.discussionComment ⟨repoName, owner⟩ (decVal numStr)
        (decVal idStr))) ∧
    parse_url (ghUrl [owner, repoName, pullKw, numStr]
        ((("discussioncomment-").data) ++ idStr)) looseSettings =
      .ok (some (.discussionComment ⟨repoName, owner⟩ (decVal numStr)
        (decVal idStr))) ∧
    parse_url (ghUrl [owner, repoName, discussionsKw, numStr]
        ((("discussioncomment-").data) ++ idStr)) looseSettings =
      .ok (some (.discussionComment ⟨repoName, owner⟩ (decVal numStr)
        (decVal idStr)))) := by
  refine ⟨⟨?_, ?_, ?_⟩, ⟨?_, ?_, ?_⟩⟩
  · exact loose_entry_some owner repoName issuesKw numStr [] _ _ (Or.inl rfl)
      ho hr hn hd (by simp) rfl (by
        simp only [List.nil_append]
        rw [looseDispatch_issuecomment _ _ _ _ issuesKw idStr hi hid]
        rfl)
  · exact loose_entry_some owner repoName discussionsKw numStr [] _ _
      (Or.inr (Or.inr rfl)) ho hr hn hd (by simp) rfl (by
        simp only [List.nil_append]
        rw [looseDispatch_issuecomment _ _ _ _ discussionsKw idStr hi hid]
        rfl)
  · exact loose_entry_some owner repoName pullKw numStr [] _ _
      (Or.inr (Or.inl rfl)) ho hr hn hd (by simp) rfl (by
        simp only [List.nil_append]
        rw [looseDispatch_issuecomment _ _ _ _ pullKw idStr hi hid]
        rfl)
  · exact loose_entry_some owner repoName issuesKw numStr [] _ _ (Or.inl rfl)
      ho hr hn hd (by simp) rfl (by
        simp only [List.nil_append]
        exact looseDispatch_discussioncomment _ _ _ _ issuesKw idStr hi hid rfl)
  · exact loose_entry_some owner repoName pullKw numStr [] _ _
      (Or.inr (Or.inl rfl)) ho hr hn hd (by simp) rfl (by
        simp only [List.nil_append]
        exact looseDispatch_discussioncomment _ _ _ _ pullKw idStr hi hid rfl)
  · exact loose_entry_some owner repoName discussionsKw numStr [] _ _
      (Or.inr (Or.inr rfl)) ho hr hn hd (by simp) rfl (by
        simp only [List.nil_append]
        exact looseDispatch_discussioncomment _ _ _ _ discussionsKw idStr hi hid
          rfl)

/-- Witness for C5 at `.../owner/repo/{kw}/123` with comment id `456`. -/
theorem c5_loose_fragment_mapping_witness :
    valid_user (("owner").data) = true ∧
    parse_url (ghUrl [("owner").data, ("repo").data, discussionsKw,
        ("123").data] ((("issuecomment-").data) ++ ("456").data))
      looseSettings =
      .ok (some (.issueComment ⟨("repo").data, ("owner").data⟩ 123 456)) ∧
    parse_url (ghUrl [("owner").data, ("repo").data, pullKw, ("123").data]
        ((("discussioncomment-").data) ++ ("456").data)) looseSettings =
      .ok (some (.discussionComment ⟨("repo").data, ("owner").data⟩ 123 456)) := by
  have h := c5_loose_fragment_mapping (("owner").data) (("repo").data)
    (("123").data) (("456").data) (by decide) (by decide) (by decide)
    (by decide) (by decide) (by decide)
  exact ⟨by decide, h.1.2.1, h.2.2.1⟩

theorem segOk_hexStr {u : List Char} (h : u.all hexChar = true) :
    segOk u = true :=
  segOk_of_all (by decide) (by decide) (by decide) h

theorem fragIdTruthy_r (u : ParsedURL) (idStr : List Char)
    (hfrag : u.fragment = 'r' :: idStr) (hi : idStr ≠ []) :
    fragIdTruthy u rKw = some idStr := by
  unfold fragIdTruthy get_id_from_fragment
  rw [hfrag]
  rw [if_pos (show startsWith rKw ('r' :: idStr) = true from rfl)]
  simp only [show ('r' :: idStr).drop rKw.length = idStr from rfl,
    isEmpty_false_of_ne hi, Bool.false_eq_true, if_false]

theorem looseDispatch_commits_pull (u : ParsedURL) (st : MatcherSettings)
    (repo : Repo) (n : Int) (shaStr idStr : List Char)
    (hfrag : u.fragment = 'r' :: idStr)
    (hsha : shaStr.all hexChar = true) (hshane : shaStr ≠ [])
    (hi : idStr ≠ []) (hid : idStr.all Char.isDigit = true)
    (hprc : st.pull_request_review_comments = true) :
    looseDispatch u st repo n pullKw [commitsKw, shaStr, ('#' :: ('r' :: idStr))] =
      .ok (some (.pullRequestReviewComment repo n (decVal idStr)
        (some shaStr) true false)) := by
  simp only [looseDispatch]
  rw [if_pos ⟨trivial, hprc, trivial⟩]
  rw [fragIdTruthy_r u idStr hfrag hi]
  simp only [if_pos (pyHexOk_hex hsha hshane), pyInt_digits hid hi]

theorem looseDispatch_files_pull (u : ParsedURL) (st : MatcherSettings)
    (repo : Repo) (n : Int) (idStr : List Char)
    (hfrag : u.fragment = 'r' :: idStr)
    (hi : idStr ≠ []) (hid : idStr.all Char.isDigit = true)
    (hprc : st.pull_request_review_comments = true) :
    looseDispatch u st repo n pullKw [filesKw, ('#' :: ('r' :: idStr))] =
      .ok (some (.pullRequestReviewComment repo n (decVal idStr)
        none false true)) := by
  simp only [looseDispatch]
  rw [if_pos ⟨trivial, hprc, trivial⟩]
  rw [fragIdTruthy_r u idStr hfrag hi]
  simp only [pyInt_digits hid hi]

theorem looseDispatch_commits_notpull (u : ParsedURL) (st : MatcherSettings)
    (repo : Repo) (n : Int) (rt shaStr fragSeg : List Char)
    (hrtp : ¬ rt = pullKw) :
    looseDispatch u st repo n rt [commitsKw, shaStr, fragSeg] = .ok none := by
  simp only [looseDispatch]
  rw [if_neg (fun hc : True ∧
    st.pull_request_review_comments = true ∧ rt = pullKw => hrtp hc.2.2)]

theorem looseDispatch_files_notpull (u : ParsedURL) (st : MatcherSettings)
    (repo : Repo) (n : Int) (rt fragSeg : List Char)
    (hrtp : ¬ rt = pullKw) :
    looseDispatch u st repo n rt [filesKw, fragSeg] = .ok none := by
  simp only [looseDispatch]
  rw [if_neg (fun hc : True ∧
    st.pull_request_review_comments = true ∧ rt = pullKw => hrtp hc.2.2)]

/-- C4 (counterexample): the claim asserts that under loose mode
`.../issues/{n}/commits/{hex-sha}#r{id}` yields `PullRequestReviewComment`
with `commit_page=true`; the code instead yields no match, because the loose
table honors the `commits` sub-page only when the path keyword is `pull`. -/
theorem c4_counterexample_issues_commits :
    parse_url
      (("https://github.com/owner/repo/issues/123/commits/deadbeef#r456").data)
      looseSettings = .ok none := by rfl

/-- C4 (amended): under loose mode with all flags enabled, the
`commits/{sha}#r{id}` and `files#r{id}` sub-pages are honored only when the
path keyword is `pull`, in which case they yield `PullRequestReviewComment`
(with `commit_page=true` and the SHA, respectively `files_page=true`); under
`issues` and `discussions` both sub-pages yield no match. -/
theorem c4_amended_loose_subpages
    (owner repoName numStr shaStr idStr : List Char)
    (ho : valid_user owner = true) (hr : valid_repository repoName = true)
    (hn : numStr ≠ []) (hd : numStr.all Char.isDigit = true)
    (hsha : shaStr.all hexChar = true) (hshane : shaStr ≠ [])
    (hi : idStr ≠ []) (hid : idStr.all Char.isDigit = true) :
    (parse_url (ghUrl [owner, repoName, pullKw, numStr, commitsKw, shaStr]
        ('r' :: idStr)) looseSettings =
      .ok (some (.pullRequestReviewComment ⟨repoName, owner⟩ (decVal numStr)
        (decVal idStr) (some shaStr) true false)) ∧
    parse_url (ghUrl [owner, repoName, pullKw, numStr, filesKw]
        ('r' :: idStr)) looseSettings =
      .ok (some (.pullRequestReviewComment ⟨repoName, owner⟩ (decVal numStr)
        (decVal idStr) none false true))) ∧
    (parse_url (ghUrl [owner, repoName, issuesKw, numStr, commitsKw, shaStr]
        ('r' :: idStr)) looseSettings = .ok none ∧
    parse_url (ghUrl [owner, repoName, discussionsKw, numStr, commitsKw, shaStr]
        ('r' :: idStr)) looseSettings = .ok none ∧
    parse_url (ghUrl [owner, repoName, issuesKw, numStr, filesKw]
        ('r' :: idStr)) looseSettings = .ok none ∧
    parse_url (ghUrl [owner, repoName, discussionsKw, numStr, filesKw]
        ('r' :: idStr)) looseSettings = .ok none) := by
  have hmc : ∀ s ∈ [commitsKw, shaStr], segOk s = true := by
    intro s hs
    simp only [List.mem_cons, List.not_mem_nil, or_false] at hs
    rcases hs with rfl | rfl
    · decide
    · exact segOk_hexStr hsha
  have hmf : ∀ s ∈ [filesKw], segOk s = true := by
    intro s hs
    simp only [List.mem_cons, List.not_mem_nil, or_false] at hs
    rcases hs with rfl
    decide
  refine ⟨⟨?_, ?_⟩, ?_, ?_, ?_, ?_⟩
  · exact loose_entry_some owner repoName pullKw numStr [commitsKw, shaStr]
      ('r' :: idStr) _ (Or.inr (Or.inl rfl)) ho hr hn hd hmc rfl
      (looseDispatch_commits_pull _ looseSettings _ _ shaStr idStr rfl hsha
        hshane hi hid rfl)
  · exact loose_entry_some owner repoName pullKw numStr [filesKw]
      ('r' :: idStr) _ (Or.inr (Or.inl rfl)) ho hr hn hd hmf rfl
      (looseDispatch_files_pull _ looseSettings _ _ idStr rfl hi hid rfl)
  · exact loose_entry_none owner repoName issuesKw numStr [commitsKw, shaStr]
      ('r' :: idStr) (Or.inl rfl) ho hr hn hd hmc rfl
      (looseDispatch_commits_notpull _ looseSettings _ _ issuesKw shaStr _
        (by decide))
  · exact loose_entry_none owner repoName discussionsKw numStr
      [commitsKw, shaStr] ('r' :: idStr) (Or.inr (Or.inr rfl)) ho hr hn hd hmc
      rfl
      (looseDispatch_commits_notpull _ looseSettings _ _ discussionsKw shaStr _
        (by decide))
  · exact loose_entry_none owner repoName issuesKw numStr [filesKw]
      ('r' :: idStr) (Or.inl rfl) ho hr hn hd hmf rfl
      (looseDispatch_files_notpull _ looseSettings _ _ issuesKw _ (by decide))
  · exact loose_entry_none owner repoName discussionsKw numStr [filesKw]
      ('r' :: idStr) (Or.inr (Or.inr rfl)) ho hr hn hd hmf rfl
      (looseDispatch_files_notpull _ looseSettings _ _ discussionsKw _
        (by decide))

/-- Witness for the amended C4 at `owner/repo`, number 123, sha `deadbeef`,
id 456. -/
theorem c4_amended_loose_subpages_witness :
    valid_user (("owner").data) = true ∧
    parse_url (ghUrl [("owner").data, ("repo").data, pullKw, ("123").data,
        commitsKw, ("deadbeef").data] ('r' :: ("456").data)) looseSettings =
      .ok (some (.pullRequestReviewComment ⟨("repo").data, ("owner").data⟩
        123 456 (some (("deadbeef").data)) true false)) ∧
    parse_url (ghUrl [("owner").data, ("repo").data, issuesKw, ("123").data,
        commitsKw, ("deadbeef").data] ('r' :: ("456").data)) looseSettings =
      .ok none := by
  have h := c4_amended_loose_subpages (("owner").data) (("repo").data)
    (("123").data) (("deadbeef").data) (("456").data) (by decide) (by decide)
    (by decide) (by decide) (by decide) (by decide) (by decide) (by decide)
  exact ⟨by decide, h.1.1, h.2.1⟩

/-- C1 (code-bug evaluation): with `require_strict_type=False`, `parse_url`
of `.../pull/1/files#rabc` reaches the loose `files` sub-page branch, whose
`int(fragment)` is not wrapped in `try`/`except`; the Python code raises an
uncaught `ValueError` there (modelled as `.error .valueError`), contradicting
the claim that `parse_url` is total and never raises. -/
theorem c1_loose_files_value_error :
    parse_url (("https://github.com/owner/repo/pull/1/files#rabc").data)
      looseSettings = .error .valueError := by rfl

theorem scanRepo_cut (acc : List Char) {repo : List Char} (m : Char)
    (rest : List Char) (h : repo.all repoChar = true) (hm : m = '#' ∨ m = '@') :
    scanRepo acc (repo ++ m :: rest) = .cut (acc ++ repo) m rest := by
  induction repo generalizing acc with
  | nil => simp [scanRepo, hm]
  | cons c cs ih =>
    simp only [List.all_cons, Bool.and_eq_true] at h
    have hc1 : ¬ (c = '#' ∨ c = '@') := by
      rintro (rfl | rfl) <;> exact absurd h.1 (by decide)
    rw [show scanRepo acc ((c :: cs) ++ m :: rest) =
      scanRepo acc (c :: (cs ++ m :: rest)) from rfl]
    unfold scanRepo
    rw [if_neg hc1, if_pos h.1, ih (acc ++ [c]) h.2]
    simp [List.append_assoc]

theorem scanRepo_no_cut {l : List Char} (h1 : '#' ∉ l) (h2 : '@' ∉ l)
    (acc : List Char) :
    scanRepo acc l = .bad ∨ ∃ r, scanRepo acc l = .done r := by
  induction l generalizing acc with
  | nil => exact Or.inr ⟨acc, rfl⟩
  | cons c cs ih =>
    have hc : ¬ (c = '#' ∨ c = '@') := by
      rintro (rfl | rfl)
      · exact h1 (List.mem_cons_self _ _)
      · exact h2 (List.mem_cons_self _ _)
    unfold scanRepo
    rw [if_neg hc]
    by_cases hrc : repoChar c = true
    · rw [if_pos hrc]
      exact ih (fun hm => h1 (List.mem_cons_of_mem _ hm))
        (fun hm => h2 (List.mem_cons_of_mem _ hm)) (acc ++ [c])
    · rw [if_neg hrc]
      exact Or.inl rfl

theorem parse_shorthand_split (owner rest : List Char)
    (du : Option (List Char)) (st : MatcherSettings)
    (hsh : st.shorthand = true) (hslash : '/' ∉ owner) :
    parse_shorthand (owner ++ '/' :: rest) du st = shorthandBody owner rest st := by
  unfold parse_shorthand
  rw [if_neg (by simp [hsh]), splitOnce_append _ hslash]

/-- C2: for every shorthand `owner/repo@ref` whose owner and repo consist of
the allowed characters and whose ref passes the git ref-name validator, with
`shorthand` and `short_refs` enabled, `parse_shorthand` returns the `Ref`
resource carrying that repository and ref. -/
theorem c2_shorthand_ref (owner repo refStr : List Char)
    (du : Option (List Char)) (st : MatcherSettings)
    (hu : owner.all repoChar = true) (hrp : repo.all repoChar = true)
    (href : validate_ref refStr = true)
    (hsh : st.shorthand = true) (hsr : st.short_refs = true) :
    parse_shorthand (owner ++ '/' :: (repo ++ '@' :: refStr)) du st =
      some (.ref ⟨repo, owner⟩ refStr) := by
  rw [parse_shorthand_split owner _ du st hsh (not_mem_of_all hu (by decide))]
  have hred : shorthandBody owner (repo ++ '@' :: refStr) st =
      (if ¬ validate_ref refStr = true then none
       else if st.short_refs = true then some (.ref ⟨repo, owner⟩ refStr)
       else none) := by
    unfold shorthandBody
    rw [if_neg (by simp [hu]), scanRepo_cut [] '@' refStr hrp (Or.inr rfl)]
    rfl
  rw [hred, if_neg (by simp [href]), if_pos hsr]

/-- Witness for C2 at `octocat/Hello-World@v1.0`. -/
theorem c2_shorthand_ref_witness :
    validate_ref (("v1.0").data) = true ∧
    parse_shorthand ((("octocat").data) ++ '/' :: ((("Hello-World").data) ++
        '@' :: ("v1.0").data)) none defaultSettings =
      some (.ref ⟨("Hello-World").data, ("octocat").data⟩ (("v1.0").data)) :=
  ⟨by decide,
    c2_shorthand_ref (("octocat").data) (("Hello-World").data) (("v1.0").data)
      none defaultSettings (by decide) (by decide) (by decide) rfl rfl⟩

/-- C8: `parse_shorthand` rejects zero and negative numbers in the `#number`
form (for every settings value), and accepts every number `n ≥ 1` as a
`NumberedResource` when `shorthand` and `short_numberables` are enabled.
The number is quantified through its textual form `refStr` with
`pyInt refStr = some n`. -/
theorem c8_shorthand_number_positivity (owner repo refStr : List Char)
    (n : Int) (du : Option (List Char)) (st : MatcherSettings)
    (hu : owner.all repoChar = true) (hrp : repo.all repoChar = true)
    (hnum : pyInt refStr = some n) :
    (n ≤ 0 → parse_shorthand (owner ++ '/' :: (repo ++ '#' :: refStr)) du st =
      none) ∧
    (1 ≤ n → st.shorthand = true → st.short_numberables = true →
      parse_shorthand (owner ++ '/' :: (repo ++ '#' :: refStr)) du st =
        some (.numbered ⟨repo, owner⟩ n)) := by
  have hred : st.shorthand = true →
      parse_shorthand (owner ++ '/' :: (repo ++ '#' :: refStr)) du st =
        (if n < 1 then none
         else if st.short_numberables = true then
           some (.numbered ⟨repo, owner⟩ n)
         else none) := by
    intro hsh
    rw [parse_shorthand_split owner _ du st hsh (not_mem_of_all hu (by decide))]
    have hbody : shorthandBody owner (repo ++ '#' :: refStr) st =
        (match pyInt refStr with
         | none => none
         | some number =>
           if number < 1 then none
           else if st.short_numberables = true then
             some (.numbered ⟨repo, owner⟩ number)
           else none) := by
      unfold shorthandBody
      rw [if_neg (by simp [hu]), scanRepo_cut [] '#' refStr hrp (Or.inl rfl)]
      rfl
    rw [hbody, hnum]
  constructor
  · intro hle
    cases hshb : st.shorthand with
    | false =>
      unfold parse_shorthand
      rw [if_pos (by simp [hshb])]
    | true =>
      rw [hred hshb, if_pos (by omega)]
  · intro h1 hsh hsn
    rw [hred hsh, if_neg (by omega), if_pos hsn]

/-- Witness for C8: `o/r#0` and `o/r#-5` yield no match, `o/r#42` yields the
numbered resource. -/
theorem c8_shorthand_number_positivity_witness :
    pyInt (("0").data) = some 0 ∧
    parse_shorthand ((("o").data) ++ '/' :: ((("r").data) ++ '#' ::
        ("0").data)) none defaultSettings = none ∧
    parse_shorthand ((("o").data) ++ '/' :: ((("r").data) ++ '#' ::
        ("-5").data)) none defaultSettings = none ∧
    parse_shorthand ((("o").data) ++ '/' :: ((("r").data) ++ '#' ::
        ("42").data)) none defaultSettings =
      some (.numbered ⟨("r").data, ("o").data⟩ 42) := by
  refine ⟨by decide, ?_, ?_, ?_⟩
  · exact (c8_shorthand_number_positivity (("o").data) (("r").data)
      (("0").data) 0 none defaultSettings (by decide) (by decide)
      (by decide)).1 (by decide)
  · exact (c8_shorthand_number_positivity (("o").data) (("r").data)
      (("-5").data) (-5) none defaultSettings (by decide) (by decide)
      (by decide)).1 (by decide)
  · exact (c8_shorthand_number_positivity (("o").data) (("r").data)
      (("42").data) 42 none defaultSettings (by decide) (by decide)
      (by decide)).2 (by decide) rfl rfl

/-- C6 (counterexample): the claim says an owner containing `'_'` violates
the username rules and must yield no match, but `parse_shorthand` accepts
`a_b/repo` and returns the repository: the shorthand owner check is only a
character-set check over `[A-Za-z0-9-._]`. -/
theorem c6_counterexample_underscore_owner :
    parse_shorthand (("a_b/repo").data) none defaultSettings =
      some (.repoRes ⟨("repo").data, ("a_b").data⟩) := by rfl

/-- C6 (amended): in `parse_shorthand` the owner part is validated only
against the character set `[A-Za-z0-9-._]` (no length bound, no hyphen
placement rule): an owner containing a character outside that set yields no
match for every settings value and default user. -/
theorem c6_amended_shorthand_owner_charset (owner rest : List Char)
    (du : Option (List Char)) (st : MatcherSettings)
    (hslash : '/' ∉ owner) (hbad : ∃ c ∈ owner, repoChar c = false) :
    parse_shorthand (owner ++ '/' :: rest) du st = none := by
  cases hshb : st.shorthand with
  | false =>
    unfold parse_shorthand
    rw [if_pos (by simp [hshb])]
  | true =>
    rw [parse_shorthand_split owner rest du st hshb hslash]
    unfold shorthandBody
    rw [if_pos]
    rcases hbad with ⟨c, hc, hcf⟩
    intro hall
    have := List.all_eq_true.mp hall c hc
    rw [hcf] at this
    exact Bool.noConfusion this

/-- Witness for the amended C6 at owner `a!b` (contains `'!'`). -/
theorem c6_amended_shorthand_owner_charset_witness :
    ('/' ∉ ("a!b").data) ∧
    parse_shorthand ((("a!b").data) ++ '/' :: ("repo").data) none
      defaultSettings = none :=
  ⟨by decide,
    c6_amended_shorthand_owner_charset (("a!b").data) (("repo").data) none
      defaultSettings (by decide) ⟨'!', by decide, by decide⟩⟩

theorem splitOnce_parts {c : Char} :
    ∀ {s a b : List Char}, splitOnce c s = some (a, b) → s = a ++ c :: b := by
  intro s
  induction s with
  | nil => intro a b h; exact Option.noConfusion h
  | cons x xs ih =>
    intro a b h
    unfold splitOnce at h
    by_cases hx : x = c
    · rw [if_pos hx] at h
      injection h with h
      obtain ⟨ha, hb⟩ := Prod.mk.injEq .. ▸ h
      subst hx
      rw [← ha, ← hb]
      rfl
    · rw [if_neg hx] at h
      rcases Option.map_eq_some'.mp h with ⟨⟨a', b'⟩, hp, hf⟩
      obtain ⟨ha, hb⟩ := Prod.mk.injEq .. ▸ hf
      subst hb
      rw [← ha, List.cons_append, ← ih hp]

/-- The two `parse_shorthand` bodies agree whenever the scanned part contains
neither `'#'` nor `'@'` (the loop then never breaks, and the shared
repo branch is identical in both implementations). -/
theorem shorthandBody_agree (user rest : List Char) (st : MatcherSettings)
    (h1 : '#' ∉ rest) (h2 : '@' ∉ rest) :
    shorthandBody user rest st = shorthandBodyInit user rest st := by
  unfold shorthandBody shorthandBodyInit
  by_cases huc : ¬ (user.all repoChar = true)
  · rw [if_pos huc, if_pos huc]
  · rw [if_neg huc, if_neg huc]
    rcases scanRepo_no_cut h1 h2 [] with h | ⟨r, h⟩ <;> rw [h]

/-- C9 (counterexample): the two shipped implementations are not
extensionally equal: on `o/r@..` the final implementation validates the ref
and yields no match, while the `__init__.py` implementation returns an
unvalidated `ReleaseTag`. -/
theorem c9_counterexample_ref_shorthand :
    parse_shorthand (("o/r@..").data) none defaultSettings ≠
      parse_shorthand_init (("o/r@..").data) none defaultSettings := by decide

/-- C9 (amended): the two `parse_shorthand` implementations agree on every
input containing neither `'#'` nor `'@'` (for every default user and
settings value); they differ on `@`-refs (validated `Ref` versus unvalidated
`ReleaseTag`) and on `#`-numbers (signed `int` with a positivity check
versus `isdigit`). -/
theorem c9_amended_shorthand_agree (s : List Char) (du : Option (List Char))
    (st : MatcherSettings) (h1 : '#' ∉ s) (h2 : '@' ∉ s) :
    parse_shorthand s du st = parse_shorthand_init s du st := by
  unfold parse_shorthand parse_shorthand_init
  by_cases hsh : ¬ (st.shorthand = true)
  · rw [if_pos hsh, if_pos hsh]
  · rw [if_neg hsh, if_neg hsh]
    cases hsp : splitOnce '/' s with
    | none =>
      cases du with
      | none => rfl
      | some u => exact shorthandBody_agree u s st h1 h2
    | some p =>
      obtain ⟨user, rest⟩ := p
      have hs := splitOnce_parts hsp
      have hr1 : '#' ∉ rest := fun hm2 => h1 (hs ▸ List.mem_append.mpr
        (Or.inr (List.mem_cons_of_mem _ hm2)))
      have hr2 : '@' ∉ rest := fun hm2 => h2 (hs ▸ List.mem_append.mpr
        (Or.inr (List.mem_cons_of_mem _ hm2)))
      exact shorthandBody_agree user rest st hr1 hr2

/-- Witness for the amended C9 at `octocat/Hello-World`. -/
theorem c9_amended_shorthand_agree_witness :
    ('#' ∉ ("octocat/Hello-World").data) ∧
    parse_shorthand (("octocat/Hello-World").data) none defaultSettings =
      parse_shorthand_init (("octocat/Hello-World").data) none defaultSettings :=
  ⟨by decide,
    c9_amended_shorthand_agree (("octocat/Hello-World").data) none
      defaultSettings (by decide) (by decide)⟩

/-- The repositories contained in a resource value (at most one). -/
def reposOf : GitHubResource → List Repo
  | .user _ => []
  | .repoRes r => [r]
  | .numbered r _ => [r]
  | .issue r _ => [r]
  | .issueComment r _ _ => [r]
  | .issueEvent r _ _ => [r]
  | .pullRequest r _ => [r]
  | .pullRequestComment r _ _ => [r]
  | .pullRequestReview r _ _ => [r]
  | .pullRequestReviewComment r _ _ _ _ _ => [r]
  | .pullRequestEvent r _ _ => [r]
  | .discussion r _ => [r]
  | .discussionComment r _ _ => [r]
  | .commitRes r _ => [r]
  | .commitComment r _ _ => [r]
  | .releaseTag r _ => [r]
  | .ref r _ => [r]

set_option maxHeartbeats 1000000 in
theorem strictDispatch_repo {u : ParsedURL} {st : MatcherSettings}
    {repo : Repo} {rid : Int} {rest : List (List Char)} {r : GitHubResource}
    (h : strictDispatch u st repo rid rest = some r) :
    ∀ rp ∈ reposOf r, rp = repo := by
  unfold strictDispatch at h
  repeat' split at h
  all_goals first
    | (simp only [Except.ok.injEq, Option.some.injEq] at h
       subst h
       intro rp hrp
       simp only [reposOf, List.mem_singleton] at hrp
       exact hrp)
    | exact absurd h (by simp)

set_option maxHeartbeats 1000000 in
theorem looseDispatch_repo {u : ParsedURL} {st : MatcherSettings}
    {repo : Repo} {rid : Int} {rt : List Char} {rest : List (List Char)}
    {r : GitHubResource}
    (h : looseDispatch u st repo rid rt rest = .ok (some r)) :
    ∀ rp ∈ reposOf r, rp = repo := by
  unfold looseDispatch at h
  repeat' split at h
  all_goals first
    | (simp only [Except.ok.injEq, Option.some.injEq] at h
       subst h
       intro rp hrp
       simp only [reposOf, List.mem_singleton] at hrp
       exact hrp)
    | exact absurd h (by simp)

set_option maxHeartbeats 1000000 in
theorem fallbackTail_repo {st : MatcherSettings} {repo : Repo}
    {rest : List (List Char)} {r : GitHubResource}
    (h : fallbackTail st repo rest = some r) :
    ∀ rp ∈ reposOf r, rp = repo := by
  unfold fallbackTail at h
  repeat' split at h
  all_goals first
    | (simp only [Except.ok.injEq, Option.some.injEq] at h
       subst h
       intro rp hrp
       simp only [reposOf, List.mem_singleton] at hrp
       exact hrp)
    | exact absurd h (by simp)

theorem parse_strict_numberable_repo {u : ParsedURL} {st : MatcherSettings}
    {r : GitHubResource} (h : parse_strict_numberable_url u st = some r) :
    ∀ rp ∈ reposOf r,
      valid_user rp.owner = true ∧ valid_repository rp.name = true := by
  unfold parse_strict_numberable_url at h
  split at h
  next owner repository rt resource_id rest =>
    split at h
    · split at h
      · exact absurd h (by simp)
      · next hvalid =>
        split at h
        · exact absurd h (by simp)
        · simp only [Bool.or_eq_true, Bool.not_eq_true', not_or,
            Bool.not_eq_false] at hvalid
          intro rp hrp
          have he := strictDispatch_repo h rp hrp
          subst he
          exact ⟨hvalid.1, hvalid.2⟩
    · exact absurd h (by simp)
  next => exact absurd h (by simp)

theorem parse_loose_numberable_repo {u : ParsedURL} {st : MatcherSettings}
    {r : GitHubResource} (h : parse_loose_numberable_url u st = .ok (some r)) :
    ∀ rp ∈ reposOf r,
      valid_user rp.owner = true ∧ valid_repository rp.name = true := by
  unfold parse_loose_numberable_url at h
  split at h
  next owner repository rt resource_id rest =>
    split at h
    · split at h
      · exact absurd h (by simp)
      · next hvalid =>
        split at h
        · exact absurd h (by simp)
        · simp only [Bool.or_eq_true, Bool.not_eq_true', not_or,
            Bool.not_eq_false] at hvalid
          intro rp hrp
          have he := looseDispatch_repo h rp hrp
          subst he
          exact ⟨hvalid.1, hvalid.2⟩
    · exact absurd h (by simp)
  next => exact absurd h (by simp)

theorem parse_url_fallback_repo {st : MatcherSettings}
    {pf : List (List Char)} {r : GitHubResource}
    (h : parse_url_fallback st pf = some r) :
    ∀ rp ∈ reposOf r,
      valid_user rp.owner = true ∧ valid_repository rp.name = true := by
  unfold parse_url_fallback at h
  split at h
  · exact absurd h (by simp)
  next owner rest =>
    split at h
    · exact absurd h (by simp)
    · split at h
      · next hvu =>
        split at h
        · simp only [Option.some.injEq] at h
          subst h
          intro rp hrp
          simp [reposOf] at hrp
        · next repository_name rest2 =>
          split at h
          · next hvr =>
            split at h
            · simp only [Option.some.injEq] at h
              subst h
              intro rp hrp
              simp only [reposOf, List.mem_singleton] at hrp
              subst hrp
              exact ⟨hvu, hvr⟩
            · intro rp hrp
              have he := fallbackTail_repo h rp hrp
              subst he
              exact ⟨hvu, hvr⟩
          · exact absurd h (by simp)
      · exact absurd h (by simp)

/-- C10: every `Repo` contained in a non-`None` result of `parse_url`
(parsing.py) carries an owner accepted by the username validator and a name
accepted by the repository-name validator, for every input string and every
settings value. -/
theorem c10_parse_url_repo_validated (s : List Char) (st : MatcherSettings)
    (r : GitHubResource) (h : parse_url s st = .ok (some r)) :
    ∀ rp ∈ reposOf r,
      valid_user rp.owner = true ∧ valid_repository rp.name = true := by
  unfold parse_url parse_url_of at h
  split at h
  · exact absurd h (by simp)
  · split at h
    next e heq => exact absurd h (by simp)
    next v heq =>
      simp only [Except.ok.injEq, Option.some.injEq] at h
      subst h
      split at heq
      · simp only [Except.ok.injEq] at heq
        exact parse_strict_numberable_repo heq
      · exact parse_loose_numberable_repo heq
    next heq =>
      simp only [Except.ok.injEq] at h
      exact parse_url_fallback_repo h

/-- Witness for C10 at a commit-comment URL. -/
theorem c10_parse_url_repo_validated_witness :
    parse_url (("https://github.com/octocat/Hello-World/commit/abc123#commitcomment-99").data)
      defaultSettings =
      .ok (some (.commitComment ⟨("Hello-World").data, ("octocat").data⟩
        (("abc123").data) 99)) ∧
    ∀ rp ∈ reposOf (.commitComment
        (⟨("Hello-World").data, ("octocat").data⟩ : Repo) (("abc123").data) 99),
      valid_user rp.owner = true ∧ valid_repository rp.name = true :=
  ⟨by rfl,
    c10_parse_url_repo_validated
      (("https://github.com/octocat/Hello-World/commit/abc123#commitcomment-99").data)
      defaultSettings _ (by rfl)⟩

end Ghretos
